import Mathlib

/-!
Verification of the `todo-agent` Markdown TODO parser.

The Python source (`luna/todo-agent.py`) is shallowly embedded below:
lines of text become `List Char`, the regex patterns of
`parse_task_line` / `parse_section_header` become explicit character-level
matching functions with the same backtracking behaviour as `re.match`
on those concrete patterns, and the single-pass section builder becomes a
structural recursion over the list of lines.
-/

set_option autoImplicit false

namespace TodoAgent

/-- Whitespace as recognised by Python `str.strip` / `str.rstrip` /
`str.lstrip` and the regex class on ASCII text: space, tab, newline,
carriage return, vertical tab, form feed. -/
def pyIsSpace (c : Char) : Bool :=
  c == ' ' || c == '\t' || c == '\n' || c == '\r' || c == '\x0b' || c == '\x0c'

/-- Python `str.lstrip()`. -/
def lstrip (s : List Char) : List Char := s.dropWhile pyIsSpace

/-- Python `str.rstrip()`. -/
def rstrip (s : List Char) : List Char := (s.reverse.dropWhile pyIsSpace).reverse

/-- Python `str.strip()`. -/
def strip (s : List Char) : List Char := lstrip (rstrip s)

/-- The `TaskStatus` enumeration of the source. -/
inductive TaskStatus : Type
  | completed
  | in_progress
  | pending
  | unknown
deriving DecidableEq

/-- The `Task` dataclass of the source. -/
structure Task : Type where
  content : List Char
  status : TaskStatus
  level : Nat
  line_number : Nat
deriving DecidableEq

/-- The `TodoSection` dataclass of the source. -/
structure TodoSection : Type where
  title : List Char
  tasks : List Task
  line_number : Nat
deriving DecidableEq

/-- Matching of the regex tail fragment such that the pattern piece is
optional whitespace followed by a captured group of one or more
arbitrary non-newline characters, with `re` backtracking semantics
(the whitespace run is consumed greedily, then given back one character
at a time until the capture can start); returns the captured group. -/
def matchSpacesDotPlus : List Char → Option (List Char)
  | [] => none
  | c :: cs =>
    if pyIsSpace c then
      match matchSpacesDotPlus cs with
      | some g => some g
      | none => if c ≠ '\n' then some (c :: cs.takeWhile (fun d => d ≠ '\n')) else none
    else
      some ((c :: cs).takeWhile (fun d => d ≠ '\n'))

/-- Matching of a checkbox task pattern of `parse_task_line`: optional
whitespace, a dash, optional whitespace, an opening bracket, one marker
character accepted by `isM`, a closing bracket, then the
`matchSpacesDotPlus` tail.  Returns the captured group. -/
def matchCheckbox (isM : Char → Bool) (s : List Char) : Option (List Char) :=
  match lstrip s with
  | [] => none
  | c1 :: r1 =>
    if c1 = '-' then
      match lstrip r1 with
      | [] => none
      | c2 :: r2 =>
        if c2 = '[' then
          match r2 with
          | [] => none
          | cm :: r3 =>
            if isM cm then
              match r3 with
              | [] => none
              | cb :: r4 => if cb = ']' then matchSpacesDotPlus r4 else none
            else none
        else none
    else none

/-- Matching of a plain bullet pattern of `parse_task_line`: optional
whitespace, the bullet character `b`, then the `matchSpacesDotPlus`
tail.  Returns the captured group. -/
def matchBullet (b : Char) (s : List Char) : Option (List Char) :=
  match lstrip s with
  | [] => none
  | c :: r => if c = b then matchSpacesDotPlus r else none

/-- Marker class of the completed checkbox with a lowercase x. -/
def isMarkX (c : Char) : Bool := c == 'x'

/-- Marker class of the completed checkbox with an uppercase X. -/
def isMarkCapX (c : Char) : Bool := c == 'X'

/-- Marker class of the in-progress checkbox with a tilde. -/
def isMarkTilde (c : Char) : Bool := c == '~'

/-- Marker class of the in-progress checkbox with an o. -/
def isMarkO (c : Char) : Bool := c == 'o'

/-- `TodoAgent.parse_task_line` of the source: right-strip the line,
reject it when empty, compute the indentation level from the original
line, then try the eight task patterns in order. -/
def parse_task_line (line : List Char) (line_number : Nat) : Option Task :=
  let stripped_line := rstrip line
  if stripped_line = [] then none
  else
    let level := (line.length - (lstrip line).length) / 2 + 1
    match matchCheckbox isMarkX stripped_line with
    | some g => some ⟨strip g, TaskStatus.completed, level, line_number⟩
    | none =>
    match matchCheckbox isMarkCapX stripped_line with
    | some g => some ⟨strip g, TaskStatus.completed, level, line_number⟩
    | none =>
    match matchCheckbox pyIsSpace stripped_line with
    | some g => some ⟨strip g, TaskStatus.pending, level, line_number⟩
    | none =>
    match matchCheckbox isMarkTilde stripped_line with
    | some g => some ⟨strip g, TaskStatus.in_progress, level, line_number⟩
    | none =>
    match matchCheckbox isMarkO stripped_line with
    | some g => some ⟨strip g, TaskStatus.in_progress, level, line_number⟩
    | none =>
    match matchBullet '-' stripped_line with
    | some g => some ⟨strip g, TaskStatus.pending, level, line_number⟩
    | none =>
    match matchBullet '*' stripped_line with
    | some g => some ⟨strip g, TaskStatus.pending, level, line_number⟩
    | none =>
    match matchBullet '+' stripped_line with
    | some g => some ⟨strip g, TaskStatus.pending, level, line_number⟩
    | none => none

/-- Attempting the bounded hash-run alternatives of the header pattern,
largest first, mirroring greedy matching with backtracking of a run of
one to six hash characters followed by the `matchSpacesDotPlus` tail.
The argument list is already stripped and its first `k` characters are
hashes whenever `tryHeaderK` is called with `k`. -/
def tryHeaderK (stripped : List Char) : Nat → Option (List Char × Nat)
  | 0 => none
  | k + 1 =>
    match matchSpacesDotPlus (stripped.drop (k + 1)) with
    | some g => some (g, k + 1)
    | none => tryHeaderK stripped k

/-- `TodoAgent.parse_section_header` of the source: strip the line and
match one to six leading hashes, optional whitespace and remaining
text; returns the stripped title and the hash count. -/
def parse_section_header (line : List Char) : Option (List Char × Nat) :=
  let stripped := strip line
  let run := (stripped.takeWhile (fun c => c = '#')).length
  match tryHeaderK stripped (min run 6) with
  | some (g, k) => some (strip g, k)
  | none => none

/-- The line loop of `TodoAgent.parse_todo_file` together with its final
flush: `n` is the one-based number of the next line, `cur` the title of
the currently open section, `tasks` the accumulator of tasks collected
since the last header, `secs` the sections emitted so far.  At the end
of the input the open section, when present, is emitted with line
number `n - 1`, which at the top-level call equals the total number of
lines of the document. -/
def finishLoop : List (List Char) → Nat → Option (List Char) → List Task →
    List TodoSection → List TodoSection
  | [], n, cur, tasks, secs =>
    match cur with
    | some t => secs ++ [⟨t, tasks, n - 1⟩]
    | none => secs
  | l :: rest, n, cur, tasks, secs =>
    match parse_section_header l with
    | some (title, _) =>
      match cur with
      | some t => finishLoop rest (n + 1) (some title) [] (secs ++ [⟨t, tasks, n⟩])
      | none => finishLoop rest (n + 1) (some title) [] secs
    | none =>
      match parse_task_line l n with
      | some task => finishLoop rest (n + 1) cur (tasks ++ [task]) secs
      | none => finishLoop rest (n + 1) cur tasks secs

/-- `TodoAgent.parse_todo_file` of the source, on an already-read list of
lines. -/
def parse_todo_file (lines : List (List Char)) : List TodoSection :=
  finishLoop lines 1 none [] []

/-- The summary dictionary of `get_task_summary`. -/
structure Summary : Type where
  completed : Nat
  in_progress : Nat
  pending : Nat
  total : Nat
deriving DecidableEq

/-- One iteration of the task loop of `get_task_summary`. -/
def tallyTask (s : Summary) (t : Task) : Summary :=
  let s1 :=
    if t.status = TaskStatus.completed then { s with completed := s.completed + 1 }
    else if t.status = TaskStatus.in_progress then { s with in_progress := s.in_progress + 1 }
    else if t.status = TaskStatus.pending then { s with pending := s.pending + 1 }
    else s
  { s1 with total := s1.total + 1 }

/-- `TodoAgent.get_task_summary` of the source. -/
def get_task_summary (sections : List TodoSection) : Summary :=
  sections.foldl (fun acc sec => sec.tasks.foldl tallyTask acc) ⟨0, 0, 0, 0⟩

/-- All tasks of a list of sections, in document order. -/
def allTasks (sections : List TodoSection) : List Task :=
  (sections.map TodoSection.tasks).flatten

/-- Number of tasks of a given status in a list of sections. -/
def countStatus (sections : List TodoSection) (st : TaskStatus) : Nat :=
  (allTasks sections).countP (fun t => t.status = st)

/-- Rounding of the rational `num / den` (`den` positive) to the nearest
integer, ties to even: the rounding of IEEE-754 binary64 arithmetic
and of CPython float formatting. -/
def roundHalfEven (num den : Nat) : Nat :=
  let q := num / den
  let r := num % den
  if 2 * r < den then q
  else if den < 2 * r then q + 1
  else if q % 2 = 0 then q else q + 1

/-- Floor of the base-two logarithm (zero at zero), via explicit fuel so
that concrete values reduce structurally; the fuel `n` bounds the
number of halvings of `n`. -/
def natLog2Aux : Nat → Nat → Nat
  | 0, _ => 0
  | fuel + 1, n => if 2 ≤ n then natLog2Aux fuel (n / 2) + 1 else 0

/-- Floor of the base-two logarithm of a positive number, as Python's
`int.bit_length() - 1`. -/
def natLog2 (n : Nat) : Nat := natLog2Aux n n

/-- The correctly rounded IEEE-754 binary64 value of `num / den`, as a
pair `(m, e)` whose value is `m * 2 ^ e`: round to nearest, ties to
even, with the subnormal exponent floor `-1074` of the format.  This
models the Python float division of the source exactly (its arguments
stay far below the overflow range). -/
def roundDouble (num den : Nat) : Nat × Int :=
  if num = 0 then (0, 0)
  else
    let e0 : Int := (natLog2 (num * 2 ^ 1200 / den) : Int) - 1200
    let p : Int := max (e0 - 52) (-1074)
    let m : Nat :=
      if p ≤ 0 then roundHalfEven (num * 2 ^ (-p).toNat) den
      else roundHalfEven num (den * 2 ^ p.toNat)
    (m, p)

/-- The source's `rate * 100` on a binary64 value `m * 2 ^ e`, correctly
rounded back to binary64 (100 is exactly representable). -/
def mulD100 : Nat × Int → Nat × Int
  | (m, e) =>
    if e < 0 then roundDouble (m * 100) (2 ^ (-e).toNat)
    else roundDouble (m * 100 * 2 ^ e.toNat) 1

/-- CPython `:.1f` formatting of a nonnegative binary64 value
`m * 2 ^ e`: ten times the exact value is correctly rounded, ties to
even, to an integer supplying the integral digits and the tenths
digit. -/
def formatOneDec : Nat × Int → List Char
  | (m, e) =>
    let r : Nat :=
      if e < 0 then roundHalfEven (m * 10) (2 ^ (-e).toNat)
      else m * 10 * 2 ^ e.toNat
    (Nat.repr (r / 10)).data ++ '.' :: [Nat.digitChar (r % 10)]

/-- Rendering of the completion rate with one decimal place: the
binary64 computation `completed / total * 100` of the source followed
by its `:.1f` format. -/
def renderRate (completed total : Nat) : List Char :=
  formatOneDec (mulD100 (roundDouble completed total))

/-- The status icon of `Task.__str__`. -/
def statusIcon : TaskStatus → List Char
  | TaskStatus.completed => "✅".data
  | TaskStatus.in_progress => "🚧".data
  | TaskStatus.pending => "📋".data
  | TaskStatus.unknown => "❓".data

/-- `Task.__str__` of the source: indentation proportional to
`level - 1`, the status icon, a space, the content. -/
def taskStr (t : Task) : List Char :=
  (if 1 < t.level then (List.replicate (t.level - 1) "  ".data).flatten else []) ++
    statusIcon t.status ++ ' ' :: t.content

/-- `TodoSection.__str__` of the source. -/
def sectionStr (s : TodoSection) : List Char :=
  if s.tasks = [] then "\n## ".data ++ s.title ++ "\n(No tasks)".data
  else "\n## ".data ++ s.title ++ '\n' :: List.intercalate ['\n'] (s.tasks.map taskStr)

/-- The prefix of the completion-rate line of the report. -/
def ratePre : List Char := "   📈 Completion Rate: ".data

/-- `TodoAgent.format_output` of the source, as the list of strings the
source joins with newlines (the empty-parse branch becomes a
one-element list holding its message). -/
def format_output (sections : List TodoSection) (file_path : List Char) :
    List (List Char) :=
  if sections = [] then
    ["📄 TODO file found at ".data ++ file_path ++ " but no tasks detected.".data]
  else
    let summary := get_task_summary sections
    ["📄 TODO Report from: ".data ++ file_path,
     List.replicate 60 '=',
     "\n📊 Task Summary:".data,
     "   Total Tasks: ".data ++ (Nat.repr summary.total).data,
     "   ✅ Completed: ".data ++ (Nat.repr summary.completed).data,
     "   🚧 In Progress: ".data ++ (Nat.repr summary.in_progress).data,
     "   📋 Pending: ".data ++ (Nat.repr summary.pending).data] ++
    (if 0 < summary.total then
      [ratePre ++ renderRate summary.completed summary.total ++ "%".data]
     else []) ++
    sections.map sectionStr

/-- The four case variations checked after `TODO.md` by
`find_todo_files`. -/
def todo_variations : List String := ["todo.md", "TODO.MD", "Todo.md", "ToDo.md"]

/-- `TodoAgent.find_todo_files` of the source: the directory is
abstracted as the existence predicate `ex` on file names; `Path`
equality of two candidates in the same directory is file-name
equality. -/
def find_todo_files (ex : String → Bool) : List String :=
  let init := if ex "TODO.md" then ["TODO.md"] else []
  todo_variations.foldl
    (fun acc v => if ex v = true ∧ v ∉ acc then acc ++ [v] else acc) init

/-- The one-based line numbers of the header lines of a document — the
lines `parse_section_header` recognises — in document order, where `n`
is the line number of the first listed line. -/
def headerPosFrom : List (List Char) → Nat → List Nat
  | [], _ => []
  | l :: rest, n =>
    if (parse_section_header l).isSome then n :: headerPosFrom rest (n + 1)
    else headerPosFrom rest (n + 1)

/-- The six-line round-trip document of the specification. -/
def c1doc : List (List Char) :=
  ["# Project\n".data, "## Completed\n".data, "- [x] Write spec\n".data,
   "## Pending\n".data, "- [ ] Review spec\n".data, "- [ ] Ship\n".data]

/-- Existence predicate of a directory holding the files TODO.md and
todo.md, two names of one underlying file on a case-insensitive
filesystem. -/
def exCaseFold (s : String) : Bool := s == "TODO.md" || s == "todo.md"

/-- Path resolution of that case-insensitive directory: both candidate
names resolve to one canonical path. -/
def resolveCaseFold (s : String) : String :=
  if s == "TODO.md" then "todo.md" else s

theorem dropWhile_idem (p : Char → Bool) (l : List Char) :
    (l.dropWhile p).dropWhile p = l.dropWhile p := by
  induction l with
  | nil => rfl
  | cons a l ih =>
    by_cases h : p a = true
    · simp [List.dropWhile_cons, h, ih]
    · simp [List.dropWhile_cons, h]

theorem lstrip_idem (s : List Char) : lstrip (lstrip s) = lstrip s :=
  dropWhile_idem pyIsSpace s

theorem rstrip_idem (s : List Char) : rstrip (rstrip s) = rstrip s := by
  unfold rstrip
  rw [List.reverse_reverse, dropWhile_idem]

theorem lstrip_cons (c : Char) (cs : List Char) :
    lstrip (c :: cs) = if pyIsSpace c then lstrip cs else c :: cs := by
  unfold lstrip
  rw [List.dropWhile_cons]

theorem rstrip_cons (c : Char) (cs : List Char) :
    rstrip (c :: cs) =
      if rstrip cs = [] then (if pyIsSpace c then [] else [c]) else c :: rstrip cs := by
  unfold rstrip
  rw [List.reverse_cons, List.dropWhile_append]
  by_cases h : cs.reverse.dropWhile pyIsSpace = []
  · rw [h]
    by_cases hc : pyIsSpace c = true
    · simp [hc]
    · simp [hc]
  · have h' : (cs.reverse.dropWhile pyIsSpace).reverse ≠ [] := by
      simpa using h
    simp only [List.isEmpty_iff, h, if_false, if_neg h', List.reverse_append,
      List.reverse_cons, List.reverse_nil, List.nil_append, List.singleton_append]

theorem rstrip_cons_fixed (c : Char) (cs : List Char)
    (h : rstrip (c :: cs) = c :: cs) : rstrip cs = cs := by
  rw [rstrip_cons] at h
  by_cases h0 : rstrip cs = []
  · rw [if_pos h0] at h
    by_cases hc : pyIsSpace c = true
    · rw [if_pos hc] at h; cases h
    · rw [if_neg hc] at h
      injection h with h1 h2
      rw [← h2]
      rfl
  · rw [if_neg h0] at h
    injection h with h1 h2

theorem lstrip_rstrip_comm (s : List Char) : lstrip (rstrip s) = rstrip (lstrip s) := by
  induction s with
  | nil => rfl
  | cons a t ih =>
    by_cases ha : pyIsSpace a = true
    · by_cases h0 : rstrip t = []
      · rw [rstrip_cons, if_pos h0, if_pos ha, lstrip_cons, if_pos ha, ← ih, h0]
      · rw [rstrip_cons, if_neg h0, lstrip_cons, if_pos ha, lstrip_cons, if_pos ha]
        exact ih
    · by_cases h0 : rstrip t = []
      · rw [rstrip_cons, if_pos h0, if_neg ha, lstrip_cons, if_neg ha, lstrip_cons,
          if_neg ha, rstrip_cons, if_pos h0, if_neg ha]
      · rw [rstrip_cons, if_neg h0, lstrip_cons, if_neg ha, lstrip_cons, if_neg ha,
          rstrip_cons, if_neg h0]

theorem strip_idem (s : List Char) : strip (strip s) = strip s := by
  show lstrip (rstrip (lstrip (rstrip s))) = lstrip (rstrip s)
  have h1 : rstrip (lstrip (rstrip s)) = lstrip (rstrip (rstrip s)) :=
    (lstrip_rstrip_comm (rstrip s)).symm
  rw [h1, rstrip_idem, lstrip_idem]

theorem rstrip_append (a b : List Char) (h : rstrip b ≠ []) :
    rstrip (a ++ b) = a ++ rstrip b := by
  unfold rstrip at *
  rw [List.reverse_append, List.dropWhile_append]
  have hb : (b.reverse.dropWhile pyIsSpace).isEmpty = false := by
    rw [List.isEmpty_eq_false]
    intro he
    exact h (by rw [he]; rfl)
  rw [hb]
  simp

theorem mem_of_mem_rstrip (c : Char) (s : List Char) (h : c ∈ rstrip s) : c ∈ s := by
  unfold rstrip at h
  rw [List.mem_reverse] at h
  have h2 : c ∈ s.reverse := (List.dropWhile_sublist pyIsSpace).subset h
  exact List.mem_reverse.mp h2

theorem mem_dropWhile_of_neg (p : Char → Bool) (c : Char) (l : List Char)
    (hc : c ∈ l) (hp : p c = false) : c ∈ l.dropWhile p := by
  induction l with
  | nil => cases hc
  | cons a l ih =>
    by_cases h : p a = true
    · rw [List.dropWhile_cons, if_pos h]
      rcases List.mem_cons.mp hc with rfl | hm
      · rw [h] at hp; cases hp
      · exact ih hm
    · rw [List.dropWhile_cons, if_neg h]
      exact hc

theorem strip_ne_nil_of_mem (c : Char) (g : List Char)
    (hc : c ∈ g) (hp : pyIsSpace c = false) : strip g ≠ [] := by
  have h1 : c ∈ rstrip g := by
    unfold rstrip
    rw [List.mem_reverse]
    exact mem_dropWhile_of_neg pyIsSpace c g.reverse (List.mem_reverse.mpr hc) hp
  have h2 : c ∈ strip g := mem_dropWhile_of_neg pyIsSpace c (rstrip g) h1 hp
  exact List.ne_nil_of_mem h2

theorem pyIsSpace_newline : pyIsSpace '\n' = true := by decide

theorem ne_newline_of_not_space (c : Char) (h : pyIsSpace c = false) : c ≠ '\n' := by
  intro hc
  rw [hc, pyIsSpace_newline] at h
  cases h

theorem takeWhile_ne_newline (l : List Char) (h : '\n' ∉ l) :
    l.takeWhile (fun d => d ≠ '\n') = l := by
  rw [List.takeWhile_eq_self_iff]
  intro x hx
  simp only [ne_eq, decide_eq_true_eq]
  intro he
  exact h (he ▸ hx)

theorem mspd_eq_lstrip (t : List Char) (h1 : lstrip t ≠ []) (h2 : '\n' ∉ t) :
    matchSpacesDotPlus t = some (lstrip t) := by
  induction t with
  | nil => exact absurd rfl h1
  | cons c cs ih =>
    cases hc : pyIsSpace c with
    | true =>
      have hcs : lstrip cs ≠ [] := by
        rw [lstrip_cons, if_pos hc] at h1
        exact h1
      have hni : '\n' ∉ cs := fun hm => h2 (List.mem_cons_of_mem c hm)
      rw [lstrip_cons, if_pos hc]
      simp only [matchSpacesDotPlus, hc, if_true, ih hcs hni]
    | false =>
      rw [lstrip_cons, if_neg (by simp [hc])]
      simp only [matchSpacesDotPlus, hc, if_false, Bool.false_eq_true]
      rw [takeWhile_ne_newline (c :: cs) h2]

theorem mspd_none_all_newline (t : List Char) (h : matchSpacesDotPlus t = none) :
    ∀ c ∈ t, c = '\n' := by
  induction t with
  | nil => intro c hc; cases hc
  | cons c cs ih =>
    cases hc : pyIsSpace c with
    | true =>
      cases hr : matchSpacesDotPlus cs with
      | some g => simp [matchSpacesDotPlus, hc, hr] at h
      | none =>
        have hcn : c = '\n' := by
          by_contra hne
          simp [matchSpacesDotPlus, hc, hr, hne] at h
        intro d hd
        rcases List.mem_cons.mp hd with rfl | hm
        · exact hcn
        · exact ih hr d hm
    | false => simp [matchSpacesDotPlus, hc] at h

theorem mspd_strip_ne (t : List Char) (hfix : rstrip t = t) :
    ∀ g, matchSpacesDotPlus t = some g → strip g ≠ [] := by
  induction t with
  | nil => intro g h; cases h
  | cons c cs ih =>
    intro g h
    have hcs : rstrip cs = cs := rstrip_cons_fixed c cs hfix
    cases hc : pyIsSpace c with
    | true =>
      cases hr : matchSpacesDotPlus cs with
      | some g' =>
        have hg : g' = g := by
          simp only [matchSpacesDotPlus, hc, if_true, hr] at h
          exact Option.some.inj h
        exact hg ▸ ih hcs g' hr
      | none =>
        have hall := mspd_none_all_newline cs hr
        have hcsnil : cs = [] := by
          by_contra hne
          have hnil : rstrip cs = [] := by
            unfold rstrip
            rw [List.dropWhile_eq_nil_iff.mpr, List.reverse_nil]
            intro x hx
            rw [List.mem_reverse] at hx
            rw [hall x hx]
            exact pyIsSpace_newline
          exact hne (hnil ▸ hcs).symm
        subst hcsnil
        have : rstrip [c] = [] := by
          simp [rstrip, hc]
        rw [hfix] at this
        cases this
    | false =>
      have hg : g = (c :: cs).takeWhile (fun d => d ≠ '\n') := by
        simp only [matchSpacesDotPlus, hc, if_false, Bool.false_eq_true] at h
        exact (Option.some.inj h).symm
      have hcg : c ∈ g := by
        rw [hg, List.takeWhile_cons]
        simp [ne_newline_of_not_space c hc]
      exact strip_ne_nil_of_mem c g hcg hc

theorem rstrip_lstrip_fixed (s : List Char) (hfix : rstrip s = s) :
    rstrip (lstrip s) = lstrip s := by
  rw [← lstrip_rstrip_comm, hfix]

theorem matchBullet_strip_ne (b : Char) (s : List Char) (hfix : rstrip s = s) :
    ∀ g, matchBullet b s = some g → strip g ≠ [] := by
  intro g h
  unfold matchBullet at h
  split at h
  · cases h
  · rename_i c r hls
    split at h
    · have hl : rstrip (c :: r) = c :: r := by
        rw [← hls]
        exact rstrip_lstrip_fixed s hfix
      exact mspd_strip_ne r (rstrip_cons_fixed c r hl) g h
    · cases h

theorem matchCheckbox_strip_ne (isM : Char → Bool) (s : List Char)
    (hfix : rstrip s = s) :
    ∀ g, matchCheckbox isM s = some g → strip g ≠ [] := by
  intro g h
  unfold matchCheckbox at h
  split at h
  · cases h
  · rename_i c1 r1 hls
    have hr1 : rstrip r1 = r1 := by
      apply rstrip_cons_fixed c1
      rw [← hls]
      exact rstrip_lstrip_fixed s hfix
    split at h
    · split at h
      · cases h
      · rename_i c2 r2 hls1
        have hr2 : rstrip r2 = r2 := by
          apply rstrip_cons_fixed c2
          rw [← hls1]
          exact rstrip_lstrip_fixed r1 hr1
        split at h
        · split at h
          · cases h
          · rename_i cm r3
            have hr3 : rstrip r3 = r3 := rstrip_cons_fixed cm r3 hr2
            split at h
            · split at h
              · cases h
              · rename_i cb r4
                have hr4 : rstrip r4 = r4 := rstrip_cons_fixed cb r4 hr3
                split at h
                · exact mspd_strip_ne r4 hr4 g h
                · cases h
            · cases h
        · cases h
    · cases h

theorem parse_task_line_some (line : List Char) (n : Nat) (task : Task)
    (h : parse_task_line line n = some task) :
    task.content ≠ [] ∧
    task.level = (line.length - (lstrip line).length) / 2 + 1 ∧
    task.line_number = n := by
  have hfix : rstrip (rstrip line) = rstrip line := rstrip_idem line
  simp only [parse_task_line] at h
  by_cases h0 : rstrip line = []
  · rw [if_pos h0] at h; cases h
  · rw [if_neg h0] at h
    split at h
    · rename_i g heq
      injection h with h'
      subst h'
      exact ⟨matchCheckbox_strip_ne isMarkX (rstrip line) hfix g heq, rfl, rfl⟩
    · split at h
      · rename_i g heq
        injection h with h'
        subst h'
        exact ⟨matchCheckbox_strip_ne isMarkCapX (rstrip line) hfix g heq, rfl, rfl⟩
      · split at h
        · rename_i g heq
          injection h with h'
          subst h'
          exact ⟨matchCheckbox_strip_ne pyIsSpace (rstrip line) hfix g heq, rfl, rfl⟩
        · split at h
          · rename_i g heq
            injection h with h'
            subst h'
            exact ⟨matchCheckbox_strip_ne isMarkTilde (rstrip line) hfix g heq, rfl, rfl⟩
          · split at h
            · rename_i g heq
              injection h with h'
              subst h'
              exact ⟨matchCheckbox_strip_ne isMarkO (rstrip line) hfix g heq, rfl, rfl⟩
            · split at h
              · rename_i g heq
                injection h with h'
                subst h'
                exact ⟨matchBullet_strip_ne '-' (rstrip line) hfix g heq, rfl, rfl⟩
              · split at h
                · rename_i g heq
                  injection h with h'
                  subst h'
                  exact ⟨matchBullet_strip_ne '*' (rstrip line) hfix g heq, rfl, rfl⟩
                · split at h
                  · rename_i g heq
                    injection h with h'
                    subst h'
                    exact ⟨matchBullet_strip_ne '+' (rstrip line) hfix g heq, rfl, rfl⟩
                  · cases h

/-- Claim C6: whenever `parse_task_line` recognises a line as a task, the
task's level equals the number of leading whitespace characters of the
original, untrimmed line, integer-divided by two, plus one. -/
theorem claim_C6 (line : List Char) (n : Nat) (task : Task)
    (h : parse_task_line line n = some task) :
    task.level = (line.takeWhile pyIsSpace).length / 2 + 1 := by
  have hp := parse_task_line_some line n task h
  have hlen : (line.takeWhile pyIsSpace).length + (lstrip line).length = line.length := by
    unfold lstrip
    rw [← List.length_append, List.takeWhile_append_dropWhile]
  rw [hp.2.1]
  omega

/-- Witness of claim C6 at the line made of two leading spaces, a dash, a
completed checkbox and the text a, which parses to a level-two task. -/
theorem claim_C6_witness :
    (⟨"a".data, TaskStatus.completed, 2, 1⟩ : Task).level =
      (("  - [x] a".data).takeWhile pyIsSpace).length / 2 + 1 :=
  claim_C6 "  - [x] a".data 1 ⟨"a".data, TaskStatus.completed, 2, 1⟩ (by decide)

theorem pyIsSpace_space : pyIsSpace ' ' = true := by decide

theorem pyIsSpace_dash : pyIsSpace '-' = false := by decide

theorem pyIsSpace_lbrack : pyIsSpace '[' = false := by decide

theorem rstrip_ne_of_strip_ne (t : List Char) (h : strip t ≠ []) : rstrip t ≠ [] := by
  intro he
  apply h
  unfold strip
  rw [he]
  rfl

theorem mspd_tail (text : List Char) (h1 : strip text ≠ []) (h2 : '\n' ∉ rstrip text) :
    matchSpacesDotPlus (' ' :: rstrip text) = some (strip text) := by
  have hls : lstrip (' ' :: rstrip text) = strip text := by
    rw [lstrip_cons, if_pos pyIsSpace_space]
    rfl
  have hnl : '\n' ∉ (' ' :: rstrip text) := by
    intro hm
    rcases List.mem_cons.mp hm with he | hm2
    · exact absurd he (by decide)
    · exact h2 hm2
  rw [mspd_eq_lstrip (' ' :: rstrip text) (by rw [hls]; exact h1) hnl, hls]

theorem matchCheckbox_shape (isM : Char → Bool) (m : Char) (u : List Char) :
    matchCheckbox isM ('-' :: ' ' :: '[' :: m :: ']' :: ' ' :: u) =
      if isM m then matchSpacesDotPlus (' ' :: u) else none := by
  simp [matchCheckbox, lstrip_cons, pyIsSpace_dash, pyIsSpace_space, pyIsSpace_lbrack]

theorem matchBullet_shape (b : Char) (u : List Char) (hb : pyIsSpace b = false) :
    matchBullet b (b :: u) = matchSpacesDotPlus u := by
  simp [matchBullet, lstrip_cons, hb]

theorem matchBullet_shape_ne (b a : Char) (u : List Char)
    (ha : pyIsSpace a = false) (hne : a ≠ b) :
    matchBullet b (a :: u) = none := by
  simp [matchBullet, lstrip_cons, ha, hne]

theorem matchCheckbox_shape_ne (isM : Char → Bool) (a : Char) (u : List Char)
    (ha : pyIsSpace a = false) (hne : a ≠ '-') :
    matchCheckbox isM (a :: u) = none := by
  simp [matchCheckbox, lstrip_cons, ha, hne]

theorem pyIsSpace_star : pyIsSpace '*' = false := by decide

theorem pyIsSpace_plus : pyIsSpace '+' = false := by decide

theorem parse_checkbox_eval (m : Char) (st : TaskStatus) (text : List Char) (n : Nat)
    (h1 : strip text ≠ []) (h2 : '\n' ∉ rstrip text)
    (hdisp : (if isMarkX m then TaskStatus.completed
              else if isMarkCapX m then TaskStatus.completed
              else if pyIsSpace m then TaskStatus.pending
              else if isMarkTilde m then TaskStatus.in_progress
              else TaskStatus.in_progress) = st)
    (hsome : (isMarkX m || isMarkCapX m || pyIsSpace m ||
              isMarkTilde m || isMarkO m) = true) :
    parse_task_line ('-' :: ' ' :: '[' :: m :: ']' :: ' ' :: text) n =
      some ⟨strip text, st, 1, n⟩ := by
  subst hdisp
  have hrs : rstrip text ≠ [] := rstrip_ne_of_strip_ne text h1
  have hr : rstrip ('-' :: ' ' :: '[' :: m :: ']' :: ' ' :: text) =
      '-' :: ' ' :: '[' :: m :: ']' :: ' ' :: rstrip text :=
    rstrip_append ['-', ' ', '[', m, ']', ' '] text hrs
  have hls : lstrip ('-' :: ' ' :: '[' :: m :: ']' :: ' ' :: text) =
      '-' :: ' ' :: '[' :: m :: ']' :: ' ' :: text := by
    rw [lstrip_cons, if_neg (by simp [pyIsSpace_dash])]
  have hmt := mspd_tail text h1 h2
  simp only [parse_task_line, hr, hls, matchCheckbox_shape, hmt]
  cases hx : isMarkX m with
  | true => simp [hx, strip_idem]
  | false =>
    cases hX : isMarkCapX m with
    | true => simp [hx, hX, strip_idem]
    | false =>
      cases hsp : pyIsSpace m with
      | true => simp [hx, hX, hsp, strip_idem]
      | false =>
        cases hti : isMarkTilde m with
        | true => simp [hx, hX, hsp, hti, strip_idem]
        | false =>
          cases ho : isMarkO m with
          | true => simp [hx, hX, hsp, hti, ho, strip_idem]
          | false => rw [hx, hX, hsp, hti, ho] at hsome; cases hsome

/-- Claim C2: a dash line with checkbox marker x or X parses to a
Completed task whose content is the text trimmed of surrounding
whitespace; marker space gives Pending; markers tilde and o give
InProgress; and plain bulleted dash, star or plus lines that do not
match the checkbox form give Pending with trimmed content. -/
theorem claim_C2 (text : List Char) (n : Nat)
    (h1 : strip text ≠ []) (h2 : '\n' ∉ rstrip text) :
    (parse_task_line ('-' :: ' ' :: '[' :: 'x' :: ']' :: ' ' :: text) n =
        some ⟨strip text, TaskStatus.completed, 1, n⟩) ∧
    (parse_task_line ('-' :: ' ' :: '[' :: 'X' :: ']' :: ' ' :: text) n =
        some ⟨strip text, TaskStatus.completed, 1, n⟩) ∧
    (parse_task_line ('-' :: ' ' :: '[' :: ' ' :: ']' :: ' ' :: text) n =
        some ⟨strip text, TaskStatus.pending, 1, n⟩) ∧
    (parse_task_line ('-' :: ' ' :: '[' :: '~' :: ']' :: ' ' :: text) n =
        some ⟨strip text, TaskStatus.in_progress, 1, n⟩) ∧
    (parse_task_line ('-' :: ' ' :: '[' :: 'o' :: ']' :: ' ' :: text) n =
        some ⟨strip text, TaskStatus.in_progress, 1, n⟩) ∧
    ((matchCheckbox isMarkX (rstrip ('-' :: ' ' :: text)) = none ∧
      matchCheckbox isMarkCapX (rstrip ('-' :: ' ' :: text)) = none ∧
      matchCheckbox pyIsSpace (rstrip ('-' :: ' ' :: text)) = none ∧
      matchCheckbox isMarkTilde (rstrip ('-' :: ' ' :: text)) = none ∧
      matchCheckbox isMarkO (rstrip ('-' :: ' ' :: text)) = none) →
      parse_task_line ('-' :: ' ' :: text) n =
        some ⟨strip text, TaskStatus.pending, 1, n⟩) ∧
    (parse_task_line ('*' :: ' ' :: text) n =
        some ⟨strip text, TaskStatus.pending, 1, n⟩) ∧
    (parse_task_line ('+' :: ' ' :: text) n =
        some ⟨strip text, TaskStatus.pending, 1, n⟩) := by
  have hrs : rstrip text ≠ [] := rstrip_ne_of_strip_ne text h1
  have hmt := mspd_tail text h1 h2
  refine ⟨?_, ?_, ?_, ?_, ?_, ?_, ?_, ?_⟩
  · exact parse_checkbox_eval 'x' TaskStatus.completed text n h1 h2 (by decide) (by decide)
  · exact parse_checkbox_eval 'X' TaskStatus.completed text n h1 h2 (by decide) (by decide)
  · exact parse_checkbox_eval ' ' TaskStatus.pending text n h1 h2 (by decide) (by decide)
  · exact parse_checkbox_eval '~' TaskStatus.in_progress text n h1 h2 (by decide) (by decide)
  · exact parse_checkbox_eval 'o' TaskStatus.in_progress text n h1 h2 (by decide) (by decide)
  · intro hnc
    obtain ⟨hn1, hn2, hn3, hn4, hn5⟩ := hnc
    have hr : rstrip ('-' :: ' ' :: text) = '-' :: ' ' :: rstrip text :=
      rstrip_append ['-', ' '] text hrs
    have hls : lstrip ('-' :: ' ' :: text) = '-' :: ' ' :: text := by
      rw [lstrip_cons, if_neg (by simp [pyIsSpace_dash])]
    have hmb : matchBullet '-' ('-' :: ' ' :: rstrip text) =
        some (strip text) := by
      rw [matchBullet_shape '-' (' ' :: rstrip text) pyIsSpace_dash, hmt]
    rw [hr] at hn1 hn2 hn3 hn4 hn5
    simp only [parse_task_line, hls, hr, hn1, hn2, hn3, hn4, hn5, hmb]
    simp [strip_idem]
  · have hr : rstrip ('*' :: ' ' :: text) = '*' :: ' ' :: rstrip text :=
      rstrip_append ['*', ' '] text hrs
    have hls : lstrip ('*' :: ' ' :: text) = '*' :: ' ' :: text := by
      rw [lstrip_cons, if_neg (by simp [pyIsSpace_star])]
    have hmb : matchBullet '*' ('*' :: ' ' :: rstrip text) =
        some (strip text) := by
      rw [matchBullet_shape '*' (' ' :: rstrip text) pyIsSpace_star, hmt]
    simp only [parse_task_line, hls, hr, hmb,
      matchCheckbox_shape_ne isMarkX '*' (' ' :: rstrip text) pyIsSpace_star (by decide),
      matchCheckbox_shape_ne isMarkCapX '*' (' ' :: rstrip text) pyIsSpace_star (by decide),
      matchCheckbox_shape_ne pyIsSpace '*' (' ' :: rstrip text) pyIsSpace_star (by decide),
      matchCheckbox_shape_ne isMarkTilde '*' (' ' :: rstrip text) pyIsSpace_star (by decide),
      matchCheckbox_shape_ne isMarkO '*' (' ' :: rstrip text) pyIsSpace_star (by decide),
      matchBullet_shape_ne '-' '*' (' ' :: rstrip text) pyIsSpace_star (by decide)]
    simp [strip_idem]
  · have hr : rstrip ('+' :: ' ' :: text) = '+' :: ' ' :: rstrip text :=
      rstrip_append ['+', ' '] text hrs
    have hls : lstrip ('+' :: ' ' :: text) = '+' :: ' ' :: text := by
      rw [lstrip_cons, if_neg (by simp [pyIsSpace_plus])]
    have hmb : matchBullet '+' ('+' :: ' ' :: rstrip text) =
        some (strip text) := by
      rw [matchBullet_shape '+' (' ' :: rstrip text) pyIsSpace_plus, hmt]
    simp only [parse_task_line, hls, hr, hmb,
      matchCheckbox_shape_ne isMarkX '+' (' ' :: rstrip text) pyIsSpace_plus (by decide),
      matchCheckbox_shape_ne isMarkCapX '+' (' ' :: rstrip text) pyIsSpace_plus (by decide),
      matchCheckbox_shape_ne pyIsSpace '+' (' ' :: rstrip text) pyIsSpace_plus (by decide),
      matchCheckbox_shape_ne isMarkTilde '+' (' ' :: rstrip text) pyIsSpace_plus (by decide),
      matchCheckbox_shape_ne isMarkO '+' (' ' :: rstrip text) pyIsSpace_plus (by decide),
      matchBullet_shape_ne '-' '+' (' ' :: rstrip text) pyIsSpace_plus (by decide),
      matchBullet_shape_ne '*' '+' (' ' :: rstrip text) pyIsSpace_plus (by decide)]
    simp [strip_idem]

/-- Witness of claim C2 at the completed-checkbox line with text
hi there and a trailing space, and at the plain dash bullet whose text
starts with a bracketed q, a marker outside the checkbox forms. -/
theorem claim_C2_witness :
    (parse_task_line ('-' :: ' ' :: '[' :: 'x' :: ']' :: ' ' :: "hi there ".data) 5 =
      some ⟨strip "hi there ".data, TaskStatus.completed, 1, 5⟩) ∧
    (parse_task_line ('-' :: ' ' :: "[q] stuff".data) 7 =
      some ⟨strip "[q] stuff".data, TaskStatus.pending, 1, 7⟩) :=
  ⟨(claim_C2 "hi there ".data 5 (by decide) (by decide)).1,
   (claim_C2 "[q] stuff".data 7 (by decide) (by decide)).2.2.2.2.2.1 (by decide)⟩

theorem pyIsSpace_hash : pyIsSpace '#' = false := by decide

theorem lstrip_space_prefixed (w : List Char) (hw : ∀ c ∈ w, pyIsSpace c = true)
    (x : Char) (hx : pyIsSpace x = false) (r : List Char) :
    lstrip (w ++ x :: r) = x :: r := by
  induction w with
  | nil =>
    rw [List.nil_append, lstrip_cons, if_neg (by simp [hx])]
  | cons a w ih =>
    rw [List.cons_append, lstrip_cons, if_pos (hw a (List.mem_cons_self a w))]
    exact ih (fun c hc => hw c (List.mem_cons_of_mem a hc))

theorem mspd_space_prefixed (w : List Char) (hw : ∀ c ∈ w, pyIsSpace c = true)
    (x : Char) (hx : pyIsSpace x = false) (r : List Char) :
    matchSpacesDotPlus (w ++ x :: r) =
      some ((x :: r).takeWhile (fun d => d ≠ '\n')) := by
  induction w with
  | nil =>
    rw [List.nil_append]
    simp [matchSpacesDotPlus, hx]
  | cons a w ih =>
    rw [List.cons_append]
    have ha := hw a (List.mem_cons_self a w)
    simp only [matchSpacesDotPlus, ha, if_true,
      ih (fun c hc => hw c (List.mem_cons_of_mem a hc))]

theorem matchCheckbox_bare (isM : Char → Bool) (s w2 : List Char) (m : Char)
    (hls : lstrip s = '-' :: (w2 ++ ['[', m, ']']))
    (hw2 : ∀ c ∈ w2, pyIsSpace c = true) :
    matchCheckbox isM s = none := by
  have hl2 : lstrip (w2 ++ ['[', m, ']']) = '[' :: m :: [']'] :=
    lstrip_space_prefixed w2 hw2 '[' pyIsSpace_lbrack [m, ']']
  unfold matchCheckbox
  rw [hls]
  simp [hl2, matchSpacesDotPlus]

theorem matchBullet_bare (s w2 : List Char) (m : Char)
    (hls : lstrip s = '-' :: (w2 ++ ['[', m, ']']))
    (hw2 : ∀ c ∈ w2, pyIsSpace c = true) (hmn : m ≠ '\n') :
    matchBullet '-' s = some ['[', m, ']'] := by
  unfold matchBullet
  rw [hls]
  simp only [if_pos rfl]
  rw [mspd_space_prefixed w2 hw2 '[' pyIsSpace_lbrack [m, ']']]
  simp [List.takeWhile_cons, hmn]

/-- Claim C10: a line whose right-stripped form is a dash bullet followed
by a bare checkbox with no text after the closing bracket falls through
to the plain-bullet rule: it parses to a Pending task whose content is
the bracket text itself. -/
theorem claim_C10 (line w1 w2 : List Char) (m : Char) (n : Nat)
    (hr : rstrip line = w1 ++ '-' :: (w2 ++ ['[', m, ']']))
    (hw1 : ∀ c ∈ w1, pyIsSpace c = true)
    (hw2 : ∀ c ∈ w2, pyIsSpace c = true)
    (hm : m ∈ ['x', 'X', ' ', '~', 'o']) :
    parse_task_line line n =
      some ⟨['[', m, ']'], TaskStatus.pending,
        (line.length - (lstrip line).length) / 2 + 1, n⟩ := by
  have hmn : m ≠ '\n' := by
    intro he
    rw [he] at hm
    exact absurd hm (by decide)
  have hne : rstrip line ≠ [] := by
    rw [hr]
    simp
  have hls0 : lstrip (rstrip line) = '-' :: (w2 ++ ['[', m, ']']) := by
    rw [hr]
    exact lstrip_space_prefixed w1 hw1 '-' pyIsSpace_dash (w2 ++ ['[', m, ']'])
  have hnc : ∀ isM : Char → Bool, matchCheckbox isM (rstrip line) = none :=
    fun isM => matchCheckbox_bare isM (rstrip line) w2 m hls0 hw2
  have hmb : matchBullet '-' (rstrip line) = some ['[', m, ']'] :=
    matchBullet_bare (rstrip line) w2 m hls0 hw2 hmn
  have h3 : rstrip [']'] = [']'] := by decide
  have h2' : rstrip (m :: [']']) = m :: [']'] := by
    rw [rstrip_cons, h3]
    simp
  have h1' : rstrip ('[' :: m :: [']']) = '[' :: m :: [']'] := by
    rw [rstrip_cons, h2']
    simp
  have hstrip : strip ['[', m, ']'] = ['[', m, ']'] := by
    unfold strip
    rw [h1', lstrip_cons, if_neg (by simp [pyIsSpace_lbrack])]
  simp only [parse_task_line, if_neg hne, hnc isMarkX, hnc isMarkCapX, hnc pyIsSpace,
    hnc isMarkTilde, hnc isMarkO, hmb, hstrip]

/-- Witness of claim C10 at the bare completed-checkbox line with one
trailing space and no text. -/
theorem claim_C10_witness :
    parse_task_line "- [x] ".data 2 =
      some ⟨['[', 'x', ']'], TaskStatus.pending,
        ("- [x] ".data.length - (lstrip "- [x] ".data).length) / 2 + 1, 2⟩ :=
  claim_C10 "- [x] ".data [] [' '] 'x' 2 (by decide) (by decide) (by decide) (by decide)

theorem takeWhile_replicate_append (k : Nat) (l : List Char) :
    ((List.replicate k '#' ++ l).takeWhile (fun c => c = '#')).length =
      k + (l.takeWhile (fun c => c = '#')).length := by
  induction k with
  | zero => simp
  | succ k ih =>
    simp [List.replicate_succ, List.takeWhile_cons, ih]
    omega

/-- Claim C9: a line whose stripped content starts with seven hash
characters is still recognised as a header of depth exactly six, the
seventh hash remaining as the first character of the title. -/
theorem claim_C9 (line t : List Char)
    (hs : strip line = List.replicate 7 '#' ++ t) (hnl : '\n' ∉ t) :
    parse_section_header line = some ('#' :: rstrip t, 6) := by
  have hmin : min ((strip line).takeWhile (fun c => c = '#')).length 6 = 6 := by
    rw [hs, takeWhile_replicate_append 7 t]
    omega
  have hdrop : (strip line).drop 6 = '#' :: t := by
    rw [hs]
    rfl
  have htw : ('#' :: t).takeWhile (fun d => d ≠ '\n') = '#' :: t := by
    apply takeWhile_ne_newline
    intro hm
    rcases List.mem_cons.mp hm with he | hm2
    · exact absurd he (by decide)
    · exact hnl hm2
  have hmspd : matchSpacesDotPlus ((strip line).drop 6) = some ('#' :: t) := by
    rw [hdrop]
    simp only [matchSpacesDotPlus, pyIsSpace_hash, Bool.false_eq_true, if_false]
    rw [htw]
  have ht6 : tryHeaderK (strip line) 6 = some ('#' :: t, 6) := by
    show tryHeaderK (strip line) (5 + 1) = some ('#' :: t, 6)
    simp only [tryHeaderK, hmspd]
  have hstript : strip ('#' :: t) = '#' :: rstrip t := by
    unfold strip
    rw [rstrip_cons]
    by_cases h0 : rstrip t = []
    · rw [if_pos h0, if_neg (by simp [pyIsSpace_hash]), lstrip_cons,
        if_neg (by simp [pyIsSpace_hash]), h0]
    · rw [if_neg h0, lstrip_cons, if_neg (by simp [pyIsSpace_hash])]
  simp only [parse_section_header, hmin, ht6, hstript]

/-- Witness of claim C9 at the line of seven hashes and the text Foo. -/
theorem claim_C9_witness :
    parse_section_header "####### Foo".data = some ("# Foo".data, 6) :=
  claim_C9 "####### Foo".data " Foo".data (by decide) (by decide)

/-- Claim C7: whenever `parse_task_line` returns a task, its content is a
non-empty string and its level is at least one. -/
theorem claim_C7 (line : List Char) (n : Nat) (task : Task)
    (h : parse_task_line line n = some task) :
    task.content ≠ [] ∧ 1 ≤ task.level := by
  have hp := parse_task_line_some line n task h
  refine ⟨hp.1, ?_⟩
  rw [hp.2.1]
  omega

/-- Witness of claim C7 at the pending-checkbox line with text x. -/
theorem claim_C7_witness :
    (⟨"x".data, TaskStatus.pending, 1, 1⟩ : Task).content ≠ [] ∧
      1 ≤ (⟨"x".data, TaskStatus.pending, 1, 1⟩ : Task).level :=
  claim_C7 "- [ ] x".data 1 ⟨"x".data, TaskStatus.pending, 1, 1⟩ (by decide)

theorem finishLoop_no_headers (lines : List (List Char))
    (h : ∀ l ∈ lines, parse_section_header l = none) :
    ∀ (n : Nat) (tasks : List Task) (secs : List TodoSection),
      finishLoop lines n none tasks secs = secs := by
  induction lines with
  | nil => intro n tasks secs; rfl
  | cons l rest ih =>
    intro n tasks secs
    have hl : parse_section_header l = none := h l (List.mem_cons_self l rest)
    have hrest : ∀ l' ∈ rest, parse_section_header l' = none :=
      fun l' hm => h l' (List.mem_cons_of_mem l hm)
    simp only [finishLoop, hl]
    cases ht : parse_task_line l n with
    | some task => exact ih hrest (n + 1) (tasks ++ [task]) secs
    | none => exact ih hrest (n + 1) tasks secs

/-- Claim C3: a document containing no header line parses to zero
sections, regardless of the task lines it contains. -/
theorem claim_C3 (lines : List (List Char))
    (h : ∀ l ∈ lines, parse_section_header l = none) :
    parse_todo_file lines = [] := by
  unfold parse_todo_file
  exact finishLoop_no_headers lines h 1 [] []

/-- Witness of claim C3 at a two-line document holding only task lines. -/
theorem claim_C3_witness :
    parse_todo_file ["- [x] a\n".data, "- b\n".data] = [] :=
  claim_C3 ["- [x] a\n".data, "- b\n".data] (by decide)

theorem finishLoop_map_ln (rest : List (List Char)) :
    ∀ (n : Nat) (cur : Option (List Char)) (tasks : List Task)
      (secs : List TodoSection), 1 ≤ n →
      (finishLoop rest n cur tasks secs).map TodoSection.line_number =
        secs.map TodoSection.line_number ++
          (match cur with
           | some _ => headerPosFrom rest n ++ [n - 1 + rest.length]
           | none =>
             (headerPosFrom rest n).tail ++
               (if headerPosFrom rest n = [] then [] else [n - 1 + rest.length])) := by
  induction rest with
  | nil =>
    intro n cur tasks secs h1n
    cases cur with
    | none => simp [finishLoop, headerPosFrom]
    | some t => simp [finishLoop, headerPosFrom]
  | cons l rest2 ih =>
    intro n cur tasks secs h1n
    have harith : n - 1 + (l :: rest2).length = n + rest2.length := by
      simp [List.length_cons]
      omega
    have harith2 : n + 1 - 1 + rest2.length = n + rest2.length := by omega
    cases hps : parse_section_header l with
    | none =>
      have hhp : headerPosFrom (l :: rest2) n = headerPosFrom rest2 (n + 1) := by
        simp [headerPosFrom, hps]
      cases cur with
      | none =>
        simp only [finishLoop, hps]
        cases hpt : parse_task_line l n with
        | some task =>
          rw [ih (n + 1) none (tasks ++ [task]) secs (by omega), hhp, harith2, harith]
        | none =>
          rw [ih (n + 1) none tasks secs (by omega), hhp, harith2, harith]
      | some t =>
        simp only [finishLoop, hps]
        cases hpt : parse_task_line l n with
        | some task =>
          rw [ih (n + 1) (some t) (tasks ++ [task]) secs (by omega), hhp, harith2, harith]
        | none =>
          rw [ih (n + 1) (some t) tasks secs (by omega), hhp, harith2, harith]
    | some pr =>
      rcases pr with ⟨title, lvl⟩
      have hhp : headerPosFrom (l :: rest2) n = n :: headerPosFrom rest2 (n + 1) := by
        simp [headerPosFrom, hps]
      cases cur with
      | some t =>
        simp only [finishLoop, hps]
        rw [ih (n + 1) (some title) [] (secs ++ [(⟨t, tasks, n⟩ : TodoSection)])
          (by omega), hhp, harith2, harith, List.map_append]
        simp
      | none =>
        simp only [finishLoop, hps]
        rw [ih (n + 1) (some title) [] secs (by omega), hhp, harith2, harith]
        simp

/-- Claim C4: the list of line numbers carried by the parsed sections is
exactly the list of one-based positions of the header lines with its
first element removed, followed by the total line count of the
document when at least one header exists: every section closed by a
subsequent header is tagged with the position of that next header, and
the final open section is tagged with the line count. -/
theorem claim_C4 (lines : List (List Char)) :
    (parse_todo_file lines).map TodoSection.line_number =
      (headerPosFrom lines 1).tail ++
        (if headerPosFrom lines 1 = [] then [] else [lines.length]) := by
  unfold parse_todo_file
  rw [finishLoop_map_ln lines 1 none [] [] (le_refl 1)]
  simp


/-- Counterexample to claim C1: the six-line round-trip document of the
specification parses to three sections, not two: the opening header
Project forms a section of its own, with zero tasks. -/
theorem claim_C1_counterexample :
    (parse_todo_file c1doc).length = 3 ∧ (parse_todo_file c1doc).length ≠ 2 := by
  constructor
  · rfl
  · decide

set_option exponentiation.threshold 2000 in
set_option maxRecDepth 40000 in
/-- Claim C1 as amended: the six-line document parses to three sections,
Project with no task, Completed with one completed task, Pending with
two pending tasks; the summary counts one completed, zero in progress,
two pending, three total, and the completion rate renders as 33.3. -/
theorem claim_C1_amended :
    parse_todo_file c1doc =
      [⟨"Project".data, [], 2⟩,
       ⟨"Completed".data, [⟨"Write spec".data, TaskStatus.completed, 1, 3⟩], 4⟩,
       ⟨"Pending".data,
         [⟨"Review spec".data, TaskStatus.pending, 1, 5⟩,
          ⟨"Ship".data, TaskStatus.pending, 1, 6⟩], 6⟩] ∧
    get_task_summary (parse_todo_file c1doc) = ⟨1, 0, 2, 3⟩ ∧
    renderRate 1 3 = "33.3".data ∧
    (ratePre ++ "33.3".data ++ "%".data) ∈
      format_output (parse_todo_file c1doc) "TODO.md".data := by
  refine ⟨?_, ?_, ?_, ?_⟩
  · rfl
  · rfl
  · rfl
  · decide

/-- Counterexample to claim C8: in a directory where the names TODO.md
and todo.md both exist and resolve to one file, `find_todo_files`
returns both names, so one resolved path appears twice. -/
theorem claim_C8_counterexample :
    find_todo_files exCaseFold = ["TODO.md", "todo.md"] ∧
    resolveCaseFold "TODO.md" = resolveCaseFold "todo.md" ∧
    "TODO.md" ≠ "todo.md" := by
  refine ⟨?_, ?_, ?_⟩
  · rfl
  · rfl
  · decide

/-- Claim C8 as amended: `find_todo_files` checks exactly the names
TODO.md, todo.md, TODO.MD, Todo.md and ToDo.md in that order and
returns the existing ones preserving check order; its deduplication
compares literal paths only, which never merges distinct case-variant
names, so a path may repeat once resolution identifies them. -/
theorem claim_C8_amended (ex : String → Bool) :
    find_todo_files ex = ("TODO.md" :: todo_variations).filter ex := by
  cases h0 : ex "TODO.md" <;> cases h1 : ex "todo.md" <;> cases h2 : ex "TODO.MD" <;>
    cases h3 : ex "Todo.md" <;> cases h4 : ex "ToDo.md" <;>
    simp [find_todo_files, todo_variations, List.filter, h0, h1, h2, h3, h4]

theorem tallyTask_fold (ts : List Task) :
    ∀ s : Summary, ts.foldl tallyTask s =
      ⟨s.completed + ts.countP (fun t => t.status = TaskStatus.completed),
       s.in_progress + ts.countP (fun t => t.status = TaskStatus.in_progress),
       s.pending + ts.countP (fun t => t.status = TaskStatus.pending),
       s.total + ts.length⟩ := by
  induction ts with
  | nil => intro s; simp
  | cons t ts ih =>
    intro s
    rw [List.foldl_cons, ih]
    rcases s with ⟨sc, si, sp, st⟩
    rcases t with ⟨c, stt, lv, ln⟩
    cases stt <;>
      simp [tallyTask, List.countP_cons, Summary.mk.injEq] <;> omega

theorem get_task_summary_eq (sections : List TodoSection) :
    get_task_summary sections =
      ⟨countStatus sections TaskStatus.completed,
       countStatus sections TaskStatus.in_progress,
       countStatus sections TaskStatus.pending,
       (allTasks sections).length⟩ := by
  have key : ∀ (secs : List TodoSection) (s : Summary),
      secs.foldl (fun acc sec => sec.tasks.foldl tallyTask acc) s =
        ⟨s.completed + (allTasks secs).countP (fun t => t.status = TaskStatus.completed),
         s.in_progress + (allTasks secs).countP (fun t => t.status = TaskStatus.in_progress),
         s.pending + (allTasks secs).countP (fun t => t.status = TaskStatus.pending),
         s.total + (allTasks secs).length⟩ := by
    intro secs
    induction secs with
    | nil => intro s; simp [allTasks]
    | cons sec rest ih =>
      intro s
      rw [List.foldl_cons, tallyTask_fold, ih]
      have hall : allTasks (sec :: rest) = sec.tasks ++ allTasks rest := by
        simp [allTasks]
      rw [hall]
      simp [List.countP_append, Summary.mk.injEq]
      omega
  unfold get_task_summary countStatus
  rw [key]
  simp

theorem length_eq_count_sum (ts : List Task) :
    ts.length =
      ts.countP (fun t => t.status = TaskStatus.completed) +
      ts.countP (fun t => t.status = TaskStatus.in_progress) +
      ts.countP (fun t => t.status = TaskStatus.pending) +
      ts.countP (fun t => t.status = TaskStatus.unknown) := by
  induction ts with
  | nil => simp
  | cons t ts ih =>
    rcases t with ⟨c, stt, lv, ln⟩
    cases stt <;> simp [List.countP_cons, ih] <;> omega

theorem append_ne_of_getD (a b r s : List Char) (i : Nat)
    (hia : i < a.length) (hib : i < b.length)
    (hne : a.getD i ' ' ≠ b.getD i ' ') : a ++ r ≠ b ++ s := by
  intro he
  apply hne
  rw [← List.getD_append a r ' ' i hia, ← List.getD_append b s ' ' i hib, he]

theorem append_ne_single (a r b : List Char) (i : Nat)
    (hia : i < a.length)
    (hne : a.getD i ' ' ≠ b.getD i ' ') : a ++ r ≠ b := by
  intro he
  apply hne
  rw [← List.getD_append a r ' ' i hia, he]

theorem summary_total_pos_sections_ne (sections : List TodoSection)
    (h : 0 < (get_task_summary sections).total) : sections ≠ [] := by
  intro he
  subst he
  simp [get_task_summary] at h

theorem sectionStr_ne_rate (sec : TodoSection) (r : List Char) :
    ratePre ++ r ≠ sectionStr sec := by
  have hlen4 : ("\n## ".data : List Char).length = 4 := by decide
  unfold sectionStr
  by_cases h : sec.tasks = []
  · rw [if_pos h]
    apply append_ne_of_getD ratePre ("\n## ".data ++ sec.title) r _ 0 (by decide)
      (by rw [List.length_append, hlen4]; omega)
    rw [List.getD_append "\n## ".data sec.title ' ' 0 (by omega)]
    decide
  · rw [if_neg h]
    have hshape : "\n## ".data ++ sec.title ++
        '\n' :: List.intercalate ['\n'] (sec.tasks.map taskStr) =
        ("\n## ".data ++ sec.title) ++
          '\n' :: List.intercalate ['\n'] (sec.tasks.map taskStr) := by
      rw [List.append_assoc]
    rw [hshape]
    apply append_ne_of_getD ratePre ("\n## ".data ++ sec.title) r _ 0 (by decide)
      (by rw [List.length_append, hlen4]; omega)
    rw [List.getD_append "\n## ".data sec.title ' ' 0 (by omega)]
    decide

/-- Claim C5: for every list of sections the summary keys count exactly
their own statuses and the total equals the sum over the four statuses,
unknown included; and the report of `format_output` holds a
completion-rate line, showing `completed / total * 100` rendered with
one decimal place, exactly when the total is positive. -/
theorem claim_C5 (sections : List TodoSection) (fp : List Char) :
    (get_task_summary sections).completed = countStatus sections TaskStatus.completed ∧
    (get_task_summary sections).in_progress = countStatus sections TaskStatus.in_progress ∧
    (get_task_summary sections).pending = countStatus sections TaskStatus.pending ∧
    (get_task_summary sections).total =
      countStatus sections TaskStatus.completed +
      countStatus sections TaskStatus.in_progress +
      countStatus sections TaskStatus.pending +
      countStatus sections TaskStatus.unknown ∧
    ((∃ r, (ratePre ++ r) ∈ format_output sections fp) ↔
      0 < (get_task_summary sections).total) ∧
    (0 < (get_task_summary sections).total →
      (ratePre ++ renderRate (get_task_summary sections).completed
          (get_task_summary sections).total ++ "%".data) ∈
        format_output sections fp) := by
  have hsum := get_task_summary_eq sections
  have hmem : 0 < (get_task_summary sections).total →
      (ratePre ++ renderRate (get_task_summary sections).completed
          (get_task_summary sections).total ++ "%".data) ∈
        format_output sections fp := by
    intro htot
    have hsec : sections ≠ [] := summary_total_pos_sections_ne sections htot
    simp only [format_output, if_neg hsec]
    refine List.mem_append.mpr (Or.inl (List.mem_append.mpr (Or.inr ?_)))
    rw [if_pos htot]
    exact List.mem_singleton.mpr rfl
  refine ⟨by rw [hsum], by rw [hsum], by rw [hsum], ?_, ?_, hmem⟩
  · rw [hsum]
    show (allTasks sections).length = _
    unfold countStatus
    exact length_eq_count_sum (allTasks sections)
  · constructor
    · rintro ⟨r, hr⟩
      by_cases hsec : sections = []
      · subst hsec
        rw [show format_output [] fp =
            ["📄 TODO file found at ".data ++ fp ++ " but no tasks detected.".data]
          from rfl, List.mem_singleton] at hr
        exact absurd hr (by
          apply append_ne_of_getD ratePre ("📄 TODO file found at ".data ++ fp) r
            " but no tasks detected.".data 0 (by decide)
            (by rw [List.length_append]
                have : ("📄 TODO file found at ".data : List Char).length = 21 := by decide
                omega)
          rw [List.getD_append "📄 TODO file found at ".data fp ' ' 0 (by decide)]
          decide)
      · simp only [format_output, if_neg hsec, List.mem_append, List.mem_cons,
          List.mem_singleton, List.mem_map] at hr
        rcases hr with ((h | h | h | h | h | h | h | h) | h) | ⟨sec, _, h⟩
        · exact absurd h (by
            apply append_ne_of_getD ratePre "📄 TODO Report from: ".data r fp 0
              (by decide) (by decide)
            decide)
        · exact absurd h (by
            apply append_ne_single ratePre r (List.replicate 60 '=') 0 (by decide)
            decide)
        · exact absurd h (by
            apply append_ne_single ratePre r "\n📊 Task Summary:".data 0 (by decide)
            decide)
        · exact absurd h (by
            apply append_ne_of_getD ratePre "   Total Tasks: ".data r _ 3
              (by decide) (by decide)
            decide)
        · exact absurd h (by
            apply append_ne_of_getD ratePre "   ✅ Completed: ".data r _ 3
              (by decide) (by decide)
            decide)
        · exact absurd h (by
            apply append_ne_of_getD ratePre "   🚧 In Progress: ".data r _ 3
              (by decide) (by decide)
            decide)
        · exact absurd h (by
            apply append_ne_of_getD ratePre "   📋 Pending: ".data r _ 3
              (by decide) (by decide)
            decide)
        · cases h
        · by_cases htot : 0 < (get_task_summary sections).total
          · exact htot
          · rw [if_neg htot] at h
            cases h
        · exact absurd h.symm (sectionStr_ne_rate sec r)
    · intro htot
      refine ⟨renderRate (get_task_summary sections).completed
          (get_task_summary sections).total ++ "%".data, ?_⟩
      rw [← List.append_assoc]
      exact hmem htot

/-- Witness of claim C5 at a one-section, one-completed-task document:
the completion-rate line occurs in the report. -/
theorem claim_C5_witness :
    (ratePre ++ renderRate
        (get_task_summary
          [(⟨"S".data, [(⟨"t".data, TaskStatus.completed, 1, 2⟩ : Task)], 1⟩ :
            TodoSection)]).completed
        (get_task_summary
          [(⟨"S".data, [(⟨"t".data, TaskStatus.completed, 1, 2⟩ : Task)], 1⟩ :
            TodoSection)]).total ++ "%".data) ∈
      format_output
        [(⟨"S".data, [(⟨"t".data, TaskStatus.completed, 1, 2⟩ : Task)], 1⟩ :
          TodoSection)] "f".data :=
  (claim_C5
    [(⟨"S".data, [(⟨"t".data, TaskStatus.completed, 1, 2⟩ : Task)], 1⟩ :
      TodoSection)] "f".data).2.2.2.2.2 (by decide)

end TodoAgent
